import Mathlib

/-!
Shallow embedding of `src/main.rs` (rztz/level3bug): a Kraken level-3
order-book checksum validator.  Decimal values that Rust holds in `f64`
are embedded as exact rationals (`ℚ`); the feed delivers decimal literals,
and the program's own tolerance check is meant to guard the gap between
the decimal value and its float image, so the rational model is the
arithmetic the program is defined over.  Machine integers (`i64`, `u32`)
are embedded as `ℤ` / `ℕ` (no overflow is exercised by the algorithm).
-/

namespace Level3

/-- Mirrors `enum OrderEvent { Add, Modify, Delete }` from `src/main.rs`. -/
inductive OrderEvent where
  | Add : OrderEvent
  | Modify : OrderEvent
  | Delete : OrderEvent
deriving DecidableEq

/-- Mirrors `struct Order` from `src/main.rs`: `event`, `order_id`,
`limit_price`, `order_qty`, `timestamp` (timestamp modelled as the
nanosecond count, an integer; it is only used for printing in the source). -/
structure Order where
  event : Option OrderEvent
  order_id : String
  limit_price : ℚ
  order_qty : ℚ
  timestamp : ℤ
deriving DecidableEq

/-- Mirrors `struct Level3Data` from `src/main.rs`: `symbol`, `bids`,
`asks`, `checksum`. -/
structure Level3Data where
  symbol : String
  bids : List Order
  asks : List Order
  checksum : ℕ
deriving DecidableEq

/-- Mirrors `const PRICE_PRECISION_FACTOR: f64 = 10i64.pow(1) as f64`. -/
def PRICE_PRECISION_FACTOR : ℚ := 10 ^ 1

/-- Mirrors `const QTY_PRECISION_FACTOR: f64 = 10i64.pow(8) as f64`. -/
def QTY_PRECISION_FACTOR : ℚ := 10 ^ 8

/-- Rust's `f64::round`: round to the nearest integer, ties away from zero
(embedded over `ℚ`). -/
def rustRound (x : ℚ) : ℤ := if 0 ≤ x then ⌊x + 1 / 2⌋ else -⌊-x + 1 / 2⌋

/-- The error surfaced when a value fails the tolerance assertion
(`assert!((price_f - price_if).abs() < 1e-3)` in `src/main.rs`); it records
the offending decimal value and the precision factor in force. -/
structure PrecisionError where
  value : ℚ
  factor : ℚ
deriving DecidableEq

/-- One canonicalization block of `src/main.rs` (lines 112–122 / 161–171):
`let f = v * factor; let i = f.round(); assert!((f - i as f64).abs() < 1e-3)`,
yielding the canonical integer, or the error the failed assertion aborts with. -/
def canon (v factor : ℚ) : Except PrecisionError ℤ :=
  let f := v * factor
  let i := rustRound f
  if |f - (i : ℚ)| < 1 / 1000 then .ok i else .error ⟨v, factor⟩

/-- The decimal digit characters used by integer formatting
(`i64::to_string`); arguments ≥ 10 never arise from `Nat.digits 10`. -/
def digitChar : ℕ → Char
  | 0 => '0' | 1 => '1' | 2 => '2' | 3 => '3' | 4 => '4'
  | 5 => '5' | 6 => '6' | 7 => '7' | 8 => '8' | 9 => '9'
  | _ => '!'

/-- Digit-extraction loop for base-10 formatting (least significant digit
split off last); the fuel argument only bounds the recursion and is
irrelevant once it is at least the number being printed. -/
def natCharsAux : ℕ → ℕ → List Char
  | 0, _ => []
  | fuel + 1, n => if n = 0 then [] else natCharsAux fuel (n / 10) ++ [digitChar (n % 10)]

/-- Base-10 formatting of a natural number, most significant digit first,
with `0` printed as `"0"` (the `u64` half of `i64::to_string`). -/
def natChars (n : ℕ) : List Char :=
  if n = 0 then ['0'] else natCharsAux n n

/-- `i64::to_string` over the embedded integers: optional leading minus
sign followed by the base-10 digits of the absolute value. -/
def intChars (i : ℤ) : List Char :=
  if i < 0 then '-' :: natChars i.natAbs else natChars i.natAbs

/-- The two canonical strings one order contributes, price string then
quantity string (`crc_str.push_str(&price_s); crc_str.push_str(&qty_s)`),
or the first canonicalization error (`src/main.rs` asserts the price
before the quantity). -/
def entryStr (o : Order) : Except PrecisionError (List Char) :=
  match canon o.limit_price PRICE_PRECISION_FACTOR,
        canon o.order_qty QTY_PRECISION_FACTOR with
  | .ok price_i, .ok qty_i => .ok (intChars price_i ++ intChars qty_i)
  | .error e, _ => .error e
  | .ok _, .error e => .error e

/-- The level-tracking step shared by both loops of `src/main.rs`
(lines 104–110 / 153–159): `if price != curr_price { curr_price = price;
price_level_count += 1 }`, returning the updated `(curr_price,
price_level_count)` pair. -/
def nextLevel (curr : ℚ) (cnt : ℕ) (o : Order) : ℚ × ℕ :=
  if o.limit_price = curr then (curr, cnt) else (o.limit_price, cnt + 1)

/-- The per-side loop of `src/main.rs`, abstracted over the hardcoded
numbers: `brk` is the break bound (`if price_level_count > brk { break }`,
13 for asks and 12 for bids) and `keep` the inclusion filter on
`price_level_count` deciding whether the canonical strings are pushed
onto `crc_str`.  Canonicalization (and hence its failure) happens for
every scanned order, before the filter, exactly as in the source. -/
def sideGo (keep : ℕ → Bool) (brk : ℕ) :
    ℚ → ℕ → List Order → Except PrecisionError (List Char)
  | _, _, [] => .ok []
  | curr, cnt, o :: rest =>
    if brk < (nextLevel curr cnt o).2 then .ok []
    else
      match canon o.limit_price PRICE_PRECISION_FACTOR,
            canon o.order_qty QTY_PRECISION_FACTOR with
      | .ok price_i, .ok qty_i =>
        match sideGo keep brk (nextLevel curr cnt o).1 (nextLevel curr cnt o).2 rest with
        | .ok s =>
          .ok (if keep (nextLevel curr cnt o).2
               then intChars price_i ++ (intChars qty_i ++ s) else s)
        | .error e => .error e
      | .error e, _ => .error e
      | .ok _, .error e => .error e

/-- The scan of the per-side loop, recording which orders are examined
before the break and the `price_level_count` each one is examined at. -/
def tagGo (brk : ℕ) : ℚ → ℕ → List Order → List (ℕ × Order)
  | _, _, [] => []
  | curr, cnt, o :: rest =>
    if brk < (nextLevel curr cnt o).2 then []
    else ((nextLevel curr cnt o).2, o) ::
      tagGo brk (nextLevel curr cnt o).1 (nextLevel curr cnt o).2 rest

/-- The level selector of the loops in `src/main.rs`, with the break bound
as a parameter: the orders scanned before `price_level_count` exceeds the
bound (the source instantiates the bound at 13 for asks, 12 for bids). -/
def selGo (brk : ℕ) : ℚ → ℕ → List Order → List Order
  | _, _, [] => []
  | curr, cnt, o :: rest =>
    if brk < (nextLevel curr cnt o).2 then []
    else o :: selGo brk (nextLevel curr cnt o).1 (nextLevel curr cnt o).2 rest

/-- Level selection from the loop's initial state
(`curr_price = 0.0`, `price_level_count = 0`). -/
def selectLevels (brk : ℕ) (l : List Order) : List Order := selGo brk 0 0 l

/-- The inclusion filter of the default (buggy-feed) ask loop:
`price_level_count < 13 && price_level_count != 10 && price_level_count != 11`. -/
def askKeepDefault (l : ℕ) : Bool := decide (l < 13) && (l != 10) && (l != 11)

/-- The inclusion filter of the reference-mode ask loop:
`price_level_count < 11`. -/
def askKeepRef (l : ℕ) : Bool := decide (l < 11)

/-- The inclusion filter of the bid loop: `price_level_count < 11`. -/
def bidKeep (l : ℕ) : Bool := decide (l < 11)

/-- The checksum string assembled by `main` in the default mode: the ask
loop (break bound 13, default filter) runs first, then the bid loop
(break bound 12), and the two contributions are concatenated, ask side
first.  An assertion failure in the ask loop aborts before the bid loop
runs, as in the source. -/
def buildCrcStrDefault (d : Level3Data) : Except PrecisionError (List Char) :=
  match sideGo askKeepDefault 13 0 0 d.asks, sideGo bidKeep 12 0 0 d.bids with
  | .ok a, .ok b => .ok (a ++ b)
  | .error e, _ => .error e
  | .ok _, .error e => .error e

/-- The checksum string assembled by `main` in reference mode (`ref`):
same loops, ask inclusion filter `price_level_count < 11`. -/
def buildCrcStrRef (d : Level3Data) : Except PrecisionError (List Char) :=
  match sideGo askKeepRef 13 0 0 d.asks, sideGo bidKeep 12 0 0 d.bids with
  | .ok a, .ok b => .ok (a ++ b)
  | .error e, _ => .error e
  | .ok _, .error e => .error e

/-- The bytes hashed by `crc32fast::hash(crc_str.as_bytes())`: the UTF-8
bytes of the checksum string (every character the builder emits is ASCII,
so the bytes are the code points). -/
def strBytes (s : List Char) : List ℕ := s.map Char.toNat

/-- Modelled from the spec: one bit step of CRC-32 with the IEEE 802.3
polynomial in reflected form (`0xEDB88320`); the `crc32fast` crate whose
`hash` function `src/main.rs` calls is outside this repository. -/
def crc32Step (crc : ℕ) : ℕ :=
  if crc % 2 = 1 then ((crc / 2) ^^^ 0xEDB88320) else crc / 2

/-- Iterating the CRC-32 bit step a given number of times. -/
def crc32Steps : ℕ → ℕ → ℕ
  | 0, crc => crc
  | n + 1, crc => crc32Steps n (crc32Step crc)

/-- Modelled from the spec: folding one input byte into the CRC-32 state
(reflected algorithm: xor the byte into the low bits, then eight bit steps). -/
def crc32Byte (crc b : ℕ) : ℕ := crc32Steps 8 (crc ^^^ (b % 256))

/-- Modelled from the spec: CRC-32, IEEE 802.3 polynomial, standard
reflected/init/xor parameters (initial value `0xFFFFFFFF`, final xor
`0xFFFFFFFF`), as computed by `crc32fast::hash`. -/
def crc32 (bytes : List ℕ) : ℕ :=
  (bytes.foldl crc32Byte 0xFFFFFFFF) ^^^ 0xFFFFFFFF

/-- The validation outcome of `main`: `Checksum OK!` or
`ERROR: Checksum mismatch!` (the latter with the computed CRC, the
expected checksum from the snapshot, and the assembled string, all of
which `main` prints). -/
inductive ValidationOutcome where
  | Valid : ValidationOutcome
  | Mismatch (computed expected : ℕ) (checksum_string : List Char) : ValidationOutcome
deriving DecidableEq

/-- The default-mode validation performed by `main`: build the checksum
string, hash it, and compare with `level3_data.checksum`
(`if level3_data.checksum != crc { mismatch } else { ok }`); an assertion
failure aborts with its `PrecisionError` instead. -/
def validateDefault (d : Level3Data) : Except PrecisionError ValidationOutcome :=
  match buildCrcStrDefault d with
  | .ok s =>
    .ok (if d.checksum ≠ crc32 (strBytes s)
         then .Mismatch (crc32 (strBytes s)) d.checksum s
         else .Valid)
  | .error e => .error e

/-- Declarative companion of the per-side loop: canonical per-order
strings, each still tagged with its `price_level_count`; the first
canonicalization failure among the scanned orders surfaces as the error,
exactly as the loop's assertion order dictates. -/
def tagStrsGo : List (ℕ × Order) → Except PrecisionError (List (ℕ × List Char))
  | [] => .ok []
  | p :: rest =>
    match entryStr p.2, tagStrsGo rest with
    | .ok s, .ok ts => .ok ((p.1, s) :: ts)
    | .error e, _ => .error e
    | .ok _, .error e => .error e

/-- The tagged canonical strings of the orders a side's scan examines. -/
def tagStrs (brk : ℕ) (curr : ℚ) (cnt : ℕ) (l : List Order) :
    Except PrecisionError (List (ℕ × List Char)) :=
  tagStrsGo (tagGo brk curr cnt l)

/-- Concatenation of the canonical strings whose level tag passes the
inclusion filter, in scan order and with no separators. -/
def keptStrs (keep : ℕ → Bool) (ts : List (ℕ × List Char)) : List Char :=
  ((ts.filter (fun p => keep p.1)).map Prod.snd).flatten

/-- The ask orders whose canonical strings enter the default-mode
checksum string, in scan order. -/
def keptAsks (d : Level3Data) : List Order :=
  ((tagGo 13 0 0 d.asks).filter (fun p => askKeepDefault p.1)).map Prod.snd

/-- The bid orders whose canonical strings enter the checksum string,
in scan order. -/
def keptBids (d : Level3Data) : List Order :=
  ((tagGo 12 0 0 d.bids).filter (fun p => bidKeep p.1)).map Prod.snd

/-- All orders the two scans examine (and hence canonicalize), ask side
first. -/
def scannedOrders (d : Level3Data) : List Order :=
  (tagGo 13 0 0 d.asks).map Prod.snd ++ (tagGo 12 0 0 d.bids).map Prod.snd

/-- The default ask filter with its level exclusion removed: keep every
level up to the `price_level_count < 13` base rule, including 10 and 11. -/
def askKeepNoExcl (l : ℕ) : Bool := decide (l < 13)

/-- The default-mode checksum string rebuilt without the `{10, 11}` ask
level exclusion, for the frame comparison of the exclusion quirk. -/
def buildCrcStrNoExcl (d : Level3Data) : Except PrecisionError (List Char) :=
  match sideGo askKeepNoExcl 13 0 0 d.asks, sideGo bidKeep 12 0 0 d.bids with
  | .ok a, .ok b => .ok (a ++ b)
  | .error e, _ => .error e
  | .ok _, .error e => .error e

/-- Rounding to the nearest integer with ties half-away-from-zero, written
as the spec words it: take the floor when the fractional part is below one
half, the ceiling when it is above, and on an exact tie move away from
zero. -/
def specRound (x : ℚ) : ℤ :=
  if x - ⌊x⌋ < 1 / 2 then ⌊x⌋
  else if 1 / 2 < x - ⌊x⌋ then ⌈x⌉
  else if 0 ≤ x then ⌈x⌉ else ⌊x⌋

/-- The property claimed of the level bound: one fixed `levels_per_side`
bound `N`, the same for the bid side and the ask side, such that on every
snapshot the orders contributing to the checksum on each side are exactly
the orders of the first `N` price levels. -/
def uniformLevelBound (N : ℕ) : Prop :=
  ∀ d : Level3Data,
    keptAsks d = selectLevels N d.asks ∧ keptBids d = selectLevels N d.bids

/-- Whether a side's prices are in ascending (best-ask-first) order. -/
def pricesAscending : List Order → Bool
  | [] => true
  | [_] => true
  | a :: b :: rest =>
    decide (a.limit_price ≤ b.limit_price) && pricesAscending (b :: rest)

/-- Whether a side is empty or opens with a nonzero price (a nonzero
first price keeps the scan's `0.0` sentinel distinct from real data). -/
def headPriceNonzero : List Order → Bool
  | [] => true
  | o :: _ => o.limit_price != 0

/-- The string the canonical string of a digit sequence is: a possible
leading minus sign recording the sign, decimal digits and nothing else,
no decimal point, and no leading zero except for the literal value zero. -/
def strOk (i : ℤ) (cs : List Char) : Prop :=
  '.' ∉ cs ∧ cs ≠ [] ∧ (i < 0 ↔ cs.head? = some '-') ∧
  (i = 0 → cs = ['0']) ∧
  (∀ c ∈ (if cs.head? = some '-' then cs.drop 1 else cs), '0' ≤ c ∧ c ≤ '9') ∧
  (i ≠ 0 → (if cs.head? = some '-' then cs.drop 1 else cs).head? ≠ some '0')

/-- An order carrying only the fields the checksum algorithm reads. -/
def mkOrder (p q : ℚ) : Order := ⟨none, "", p, q, 0⟩

/-- A one-ask snapshot realizing the spec's canonicalization example:
price `100.1`, quantity `1e-8`. -/
def exC1 : Level3Data := ⟨"X", [], [mkOrder (1001 / 10) (1 / 100000000)], 0⟩

/-- An empty snapshot whose expected checksum is the CRC-32 of the empty
string. -/
def exC2 : Level3Data := ⟨"X", [], [], 0⟩

/-- Twelve asks at twelve distinct price levels. -/
def exC3 : Level3Data :=
  ⟨"X", [],
    [mkOrder 1 1, mkOrder 2 1, mkOrder 3 1, mkOrder 4 1, mkOrder 5 1, mkOrder 6 1,
     mkOrder 7 1, mkOrder 8 1, mkOrder 9 1, mkOrder 10 1, mkOrder 11 1, mkOrder 12 1], 0⟩

/-- A snapshot with one ask and one bid, for exercising the exclusion
comparison. -/
def exC4 : Level3Data :=
  ⟨"X", [mkOrder 7 (1 / 100000000)], [mkOrder 9 (2 / 100000000)], 0⟩

/-- A snapshot whose asks open with a zero price, followed by a distinct
price: the sentinel-conflation input. -/
def exC5 : Level3Data := ⟨"X", [], [mkOrder 0 1, mkOrder 5 1], 0⟩

/-- A rational price that cannot be canonicalized at shift 1: `0.05 * 10`
is half way between integers, half a unit away from its rounding. -/
def exC7 : Level3Data := ⟨"X", [], [mkOrder (1 / 20) 1], 0⟩

/-- A snapshot whose asks are out of ascending price order (2 before 1)
and whose expected checksum equals the CRC-32 the code computes for it. -/
def exC8 : Level3Data :=
  ⟨"X", [], [mkOrder 2 (1 / 100000000), mkOrder 1 (1 / 100000000)], 3136788777⟩

/-- Three orders on two price levels, for exercising selector truncation. -/
def exC9 : List Order := [mkOrder 4 1, mkOrder 4 2, mkOrder 5 3]

/-- A snapshot whose single ask opens at price zero: its order is scanned
at `price_level_count = 0` and still included by the default filter. -/
def exC10 : Level3Data := ⟨"X", [], [mkOrder 0 (1 / 100000000)], 0⟩

/-- A one-ask, one-bid snapshot with nonzero opening prices. -/
def exC10w : Level3Data :=
  ⟨"X", [mkOrder 2 (1 / 100000000)], [mkOrder 1 (1 / 100000000)], 0⟩

/-- Decidable equality of `Except` results, used to state and check
concrete runs of the validator. -/
instance instDecEqExcept {ε α : Type _} [DecidableEq ε] [DecidableEq α] :
    DecidableEq (Except ε α) := fun a b =>
  match a, b with
  | .ok x, .ok y =>
    match decEq x y with
    | isTrue h => isTrue (by rw [h])
    | isFalse h => isFalse (fun he => h (Except.ok.inj he))
  | .error x, .error y =>
    match decEq x y with
    | isTrue h => isTrue (by rw [h])
    | isFalse h => isFalse (fun he => h (Except.error.inj he))
  | .ok _, .error _ => isFalse (fun he => Except.noConfusion he)
  | .error _, .ok _ => isFalse (fun he => Except.noConfusion he)

theorem digitChar_ne_dot : ∀ d : ℕ, digitChar d ≠ '.' := by
  intro d
  match d with
  | 0 | 1 | 2 | 3 | 4 | 5 | 6 | 7 | 8 | 9 => decide
  | n + 10 => exact (by decide : ('!' : Char) ≠ '.')

theorem digitChar_ne_dash : ∀ d : ℕ, digitChar d ≠ '-' := by
  intro d
  match d with
  | 0 | 1 | 2 | 3 | 4 | 5 | 6 | 7 | 8 | 9 => decide
  | n + 10 => exact (by decide : ('!' : Char) ≠ '-')

theorem digitChar_ne_zero {d : ℕ} (h : d ≠ 0) : digitChar d ≠ '0' := by
  match d with
  | 0 => exact absurd rfl h
  | 1 | 2 | 3 | 4 | 5 | 6 | 7 | 8 | 9 => decide
  | n + 10 => exact (by decide : ('!' : Char) ≠ '0')

theorem digitChar_bounds {d : ℕ} (h : d < 10) : '0' ≤ digitChar d ∧ digitChar d ≤ '9' := by
  interval_cases d <;> decide

theorem natCharsAux_eq : ∀ fuel n : ℕ, n ≤ fuel →
    natCharsAux fuel n = ((Nat.digits 10 n).reverse).map digitChar := by
  intro fuel
  induction fuel with
  | zero =>
    intro n hn
    interval_cases n
    simp [natCharsAux]
  | succ fuel ih =>
    intro n hn
    by_cases h0 : n = 0
    · subst h0; simp [natCharsAux]
    · rw [natCharsAux, if_neg h0]
      have hd : n / 10 ≤ fuel := by
        have := Nat.div_lt_self (Nat.pos_of_ne_zero h0) (by norm_num : 1 < 10)
        omega
      rw [ih _ hd, Nat.digits_def' (by norm_num : 1 < 10) (Nat.pos_of_ne_zero h0)]
      simp

theorem natChars_eq_digits (n : ℕ) :
    natChars n = if n = 0 then ['0'] else ((Nat.digits 10 n).reverse).map digitChar := by
  unfold natChars
  split
  · rfl
  · exact natCharsAux_eq n n le_rfl

theorem natChars_ne_nil (n : ℕ) : natChars n ≠ [] := by
  rw [natChars_eq_digits]
  split
  · simp
  · simp_all [Nat.digits_eq_nil_iff_eq_zero]

theorem natChars_all_digits (n : ℕ) : ∀ c ∈ natChars n, '0' ≤ c ∧ c ≤ '9' := by
  rw [natChars_eq_digits]
  split
  · intro c hc
    simp only [List.mem_singleton] at hc
    subst hc; decide
  · intro c hc
    simp only [List.mem_map, List.mem_reverse] at hc
    obtain ⟨d, hd, rfl⟩ := hc
    exact digitChar_bounds (Nat.digits_lt_base (by norm_num) hd)

theorem natChars_head_ne_zero {n : ℕ} (h : n ≠ 0) : (natChars n).head? ≠ some '0' := by
  rw [natChars_eq_digits, if_neg h]
  have hne : Nat.digits 10 n ≠ [] := Nat.digits_ne_nil_iff_ne_zero.mpr h
  rw [List.head?_map, List.head?_reverse, List.getLast?_eq_getLast _ hne]
  simp only [Option.map_some']
  intro hcontra
  exact digitChar_ne_zero (Nat.getLast_digit_ne_zero 10 h) (Option.some.inj hcontra)

theorem natChars_head_ne_dash (n : ℕ) : (natChars n).head? ≠ some '-' := by
  intro hcontra
  rcases hh : natChars n with _ | ⟨c, cs⟩
  · exact natChars_ne_nil n hh
  · rw [hh] at hcontra
    have hc : c ∈ natChars n := by rw [hh]; exact List.mem_cons_self _ _
    have := (natChars_all_digits n c hc).1
    simp only [List.head?_cons, Option.some.injEq] at hcontra
    subst hcontra
    exact absurd this (by decide)

theorem intChars_strOk (i : ℤ) : strOk i (intChars i) := by
  by_cases hi : i < 0
  · have habs : i.natAbs ≠ 0 := by omega
    unfold strOk intChars
    rw [if_pos hi]
    refine ⟨?_, by simp, ?_, ?_, ?_, ?_⟩
    · intro hmem
      rcases List.mem_cons.mp hmem with h | h
      · exact absurd h.symm (by decide)
      · rcases natChars_all_digits _ _ h with ⟨h1, _⟩
        exact absurd h1 (by decide)
    · simp [hi]
    · intro h0; omega
    · simp only [List.head?_cons, if_pos rfl, List.drop_one, List.tail_cons]
      exact natChars_all_digits _
    · intro _
      simp only [List.head?_cons, if_pos rfl, List.drop_one, List.tail_cons]
      exact natChars_head_ne_zero habs
  · unfold strOk intChars
    rw [if_neg hi]
    have hdash := natChars_head_ne_dash i.natAbs
    refine ⟨?_, natChars_ne_nil _, ?_, ?_, ?_, ?_⟩
    · intro hmem
      rcases natChars_all_digits _ _ hmem with ⟨h1, _⟩
      exact absurd h1 (by decide)
    · constructor
      · intro h; exact absurd h hi
      · intro h; exact absurd h hdash
    · intro h0
      have : i.natAbs = 0 := by omega
      rw [this]; rfl
    · rw [if_neg hdash]
      exact natChars_all_digits _
    · intro hne
      rw [if_neg hdash]
      exact natChars_head_ne_zero (by omega)

theorem rustRound_eq_specRound (x : ℚ) : rustRound x = specRound x := by
  have hfl : (⌊x⌋ : ℚ) ≤ x := Int.floor_le x
  have hfu : x < ⌊x⌋ + 1 := Int.lt_floor_add_one x
  unfold rustRound specRound
  by_cases hx : 0 ≤ x
  · rw [if_pos hx]
    by_cases h1 : x - ⌊x⌋ < 1 / 2
    · rw [if_pos h1, Int.floor_eq_iff]
      constructor
      · linarith
      · linarith
    · have hge : 1 / 2 ≤ x - ⌊x⌋ := le_of_not_lt h1
      have hc : ⌈x⌉ = ⌊x⌋ + 1 := by
        rw [Int.ceil_eq_iff]
        constructor
        · push_cast; linarith
        · push_cast; linarith
      have hfl2 : ⌊x + 1 / 2⌋ = ⌊x⌋ + 1 := by
        rw [Int.floor_eq_iff]
        constructor
        · push_cast; linarith
        · push_cast; linarith
      rw [if_neg h1]
      by_cases h2 : 1 / 2 < x - ⌊x⌋
      · rw [if_pos h2, hc, hfl2]
      · rw [if_neg h2, if_pos hx, hc, hfl2]
  · have hxlt : x < 0 := lt_of_not_ge hx
    rw [if_neg hx]
    by_cases h1 : x - ⌊x⌋ < 1 / 2
    · rw [if_pos h1]
      have hfl2 : ⌊-x + 1 / 2⌋ = -⌊x⌋ := by
        rw [Int.floor_eq_iff]
        constructor
        · push_cast; linarith
        · push_cast; linarith
      rw [hfl2]; omega
    · by_cases h2 : 1 / 2 < x - ⌊x⌋
      · have hc : ⌈x⌉ = ⌊x⌋ + 1 := by
          rw [Int.ceil_eq_iff]
          constructor
          · push_cast; linarith
          · push_cast; linarith
        have hfl2 : ⌊-x + 1 / 2⌋ = -⌊x⌋ - 1 := by
          rw [Int.floor_eq_iff]
          constructor
          · push_cast; linarith
          · push_cast; linarith
        rw [if_neg h1, if_pos h2, hc, hfl2]; omega
      · have htie : x - ⌊x⌋ = 1 / 2 := le_antisymm (le_of_not_lt h2) (le_of_not_lt h1)
        have hfl2 : ⌊-x + 1 / 2⌋ = -⌊x⌋ := by
          rw [Int.floor_eq_iff]
          constructor
          · push_cast; linarith
          · push_cast; linarith
        rw [if_neg h1, if_neg h2, if_neg hx, hfl2]; omega

theorem nextLevel_snd_ge (curr : ℚ) (cnt : ℕ) (o : Order) : cnt ≤ (nextLevel curr cnt o).2 := by
  unfold nextLevel
  split <;> simp

theorem tagStrs_nil (brk : ℕ) (curr : ℚ) (cnt : ℕ) : tagStrs brk curr cnt [] = .ok [] := rfl

theorem tagStrsGo_nil : tagStrsGo [] = .ok [] := rfl

theorem tagStrsGo_cons (p : ℕ × Order) (tl : List (ℕ × Order)) :
    tagStrsGo (p :: tl) =
      match entryStr p.2, tagStrsGo tl with
      | .ok s, .ok ts => .ok ((p.1, s) :: ts)
      | .error e, _ => .error e
      | .ok _, .error e => .error e := rfl

theorem entryStr_error_price {o : Order} {e : PrecisionError}
    (hp : canon o.limit_price PRICE_PRECISION_FACTOR = .error e) : entryStr o = .error e := by
  unfold entryStr
  rw [hp]

theorem entryStr_error_qty {o : Order} {pi : ℤ} {e : PrecisionError}
    (hp : canon o.limit_price PRICE_PRECISION_FACTOR = .ok pi)
    (hq : canon o.order_qty QTY_PRECISION_FACTOR = .error e) : entryStr o = .error e := by
  unfold entryStr
  rw [hp, hq]

theorem entryStr_ok {o : Order} {pi qi : ℤ}
    (hp : canon o.limit_price PRICE_PRECISION_FACTOR = .ok pi)
    (hq : canon o.order_qty QTY_PRECISION_FACTOR = .ok qi) :
    entryStr o = .ok (intChars pi ++ intChars qi) := by
  unfold entryStr
  rw [hp, hq]

theorem keptStrs_nil (keep : ℕ → Bool) : keptStrs keep [] = [] := rfl

theorem keptStrs_cons (keep : ℕ → Bool) (p : ℕ × List Char) (ts : List (ℕ × List Char)) :
    keptStrs keep (p :: ts) =
      if keep p.1 then p.2 ++ keptStrs keep ts else keptStrs keep ts := by
  unfold keptStrs
  rw [List.filter_cons]
  by_cases hk : keep p.1 <;> simp [hk]

theorem tagStrs_cons (brk : ℕ) (curr : ℚ) (cnt : ℕ) (o : Order) (rest : List Order) :
    tagStrs brk curr cnt (o :: rest) =
      if brk < (nextLevel curr cnt o).2 then .ok []
      else
        match entryStr o,
              tagStrs brk (nextLevel curr cnt o).1 (nextLevel curr cnt o).2 rest with
        | .ok s, .ok ts => .ok (((nextLevel curr cnt o).2, s) :: ts)
        | .error e, _ => .error e
        | .ok _, .error e => .error e := by
  unfold tagStrs
  rw [tagGo]
  by_cases hbrk : brk < (nextLevel curr cnt o).2
  · rw [if_pos hbrk, if_pos hbrk]
    rfl
  · rw [if_neg hbrk, if_neg hbrk]
    rfl

theorem sideGo_eq_tagStrs (keep : ℕ → Bool) (brk : ℕ) :
    ∀ (l : List Order) (curr : ℚ) (cnt : ℕ),
      sideGo keep brk curr cnt l = (tagStrs brk curr cnt l).map (keptStrs keep) := by
  intro l
  induction l with
  | nil =>
    intro curr cnt
    rfl
  | cons o rest ih =>
    intro curr cnt
    rw [sideGo, tagStrs_cons]
    by_cases hbrk : brk < (nextLevel curr cnt o).2
    · rw [if_pos hbrk, if_pos hbrk]
      rfl
    · rw [if_neg hbrk, if_neg hbrk]
      cases hp : canon o.limit_price PRICE_PRECISION_FACTOR with
      | error e =>
        rw [entryStr_error_price hp]
        rfl
      | ok pi =>
        cases hq : canon o.order_qty QTY_PRECISION_FACTOR with
        | error e =>
          rw [entryStr_error_qty hp hq]
          rfl
        | ok qi =>
          rw [entryStr_ok hp hq, ih (nextLevel curr cnt o).1 (nextLevel curr cnt o).2]
          cases hts : tagStrs brk (nextLevel curr cnt o).1 (nextLevel curr cnt o).2 rest with
          | error e => rfl
          | ok ts =>
            show Except.ok (if keep (nextLevel curr cnt o).2
                then intChars pi ++ (intChars qi ++ keptStrs keep ts)
                else keptStrs keep ts) =
              Except.ok (keptStrs keep (((nextLevel curr cnt o).2, intChars pi ++ intChars qi) :: ts))
            rw [keptStrs_cons]
            by_cases hk : keep (nextLevel curr cnt o).2
            · rw [if_pos hk, if_pos hk, List.append_assoc]
            · rw [if_neg hk, if_neg hk]

theorem tagStrsGo_ok_forall₂ : ∀ {tl : List (ℕ × Order)} {ts : List (ℕ × List Char)},
    tagStrsGo tl = .ok ts →
    List.Forall₂ (fun (p : ℕ × Order) (q : ℕ × List Char) =>
      p.1 = q.1 ∧ entryStr p.2 = .ok q.2) tl ts := by
  intro tl
  induction tl with
  | nil =>
    intro ts h
    cases h
    exact List.Forall₂.nil
  | cons p tl ih =>
    intro ts h
    rw [tagStrsGo_cons] at h
    cases hp : entryStr p.2 with
    | error e =>
      rw [hp] at h
      cases h
    | ok s =>
      cases htl : tagStrsGo tl with
      | error e =>
        rw [hp, htl] at h
        cases h
      | ok ts' =>
        rw [hp, htl] at h
        cases h
        exact List.Forall₂.cons ⟨rfl, hp⟩ (ih htl)

theorem forall₂_map_fst {tl : List (ℕ × Order)} {ts : List (ℕ × List Char)}
    (hf : List.Forall₂ (fun (p : ℕ × Order) (q : ℕ × List Char) =>
      p.1 = q.1 ∧ entryStr p.2 = .ok q.2) tl ts) : ts.map Prod.fst = tl.map Prod.fst := by
  induction hf with
  | nil => rfl
  | cons h1 _ ih => simp [ih, h1.1]

theorem tagStrsGo_map_fst {tl : List (ℕ × Order)} {ts : List (ℕ × List Char)}
    (h : tagStrsGo tl = .ok ts) : ts.map Prod.fst = tl.map Prod.fst :=
  forall₂_map_fst (tagStrsGo_ok_forall₂ h)

theorem tagStrsGo_error_mem : ∀ {tl : List (ℕ × Order)} {e : PrecisionError},
    tagStrsGo tl = .error e → ∃ p ∈ tl, entryStr p.2 = .error e := by
  intro tl
  induction tl with
  | nil => intro e h; cases h
  | cons p tl ih =>
    intro e h
    rw [tagStrsGo_cons] at h
    cases hp : entryStr p.2 with
    | error e' =>
      rw [hp] at h
      cases h
      exact ⟨p, List.mem_cons_self _ _, hp⟩
    | ok s =>
      cases htl : tagStrsGo tl with
      | error e' =>
        rw [hp, htl] at h
        cases h
        obtain ⟨p', hp', hf⟩ := ih htl
        exact ⟨p', List.mem_cons_of_mem _ hp', hf⟩
      | ok ts' =>
        rw [hp, htl] at h
        cases h

theorem tagStrsGo_error_of_mem : ∀ {tl : List (ℕ × Order)} (p : ℕ × Order), p ∈ tl →
    ∀ {e₀ : PrecisionError}, entryStr p.2 = .error e₀ →
    ∃ e, tagStrsGo tl = .error e := by
  intro tl
  induction tl with
  | nil => intro p hp; cases hp
  | cons q tl ih =>
    intro p hp e₀ hf
    rw [tagStrsGo_cons]
    cases hq : entryStr q.2 with
    | error e => exact ⟨e, rfl⟩
    | ok s =>
      rcases List.mem_cons.mp hp with rfl | hmem
      · exact absurd hf (by rw [hq]; intro h; cases h)
      · obtain ⟨e, htl⟩ := ih p hmem hf
        rw [htl]
        exact ⟨e, rfl⟩

theorem tagGo_fst_le (brk : ℕ) : ∀ (l : List Order) (curr : ℚ) (cnt : ℕ),
    ∀ p ∈ tagGo brk curr cnt l, p.1 ≤ brk := by
  intro l
  induction l with
  | nil => intro curr cnt p hp; cases hp
  | cons o rest ih =>
    intro curr cnt p hp
    rw [tagGo] at hp
    by_cases hbrk : brk < (nextLevel curr cnt o).2
    · rw [if_pos hbrk] at hp; cases hp
    · rw [if_neg hbrk] at hp
      rcases List.mem_cons.mp hp with rfl | hmem
      · exact le_of_not_lt hbrk
      · exact ih _ _ p hmem

theorem tagGo_fst_ge (brk : ℕ) : ∀ (l : List Order) (curr : ℚ) (cnt : ℕ),
    ∀ p ∈ tagGo brk curr cnt l, cnt ≤ p.1 := by
  intro l
  induction l with
  | nil => intro curr cnt p hp; cases hp
  | cons o rest ih =>
    intro curr cnt p hp
    rw [tagGo] at hp
    by_cases hbrk : brk < (nextLevel curr cnt o).2
    · rw [if_pos hbrk] at hp; cases hp
    · rw [if_neg hbrk] at hp
      rcases List.mem_cons.mp hp with rfl | hmem
      · exact nextLevel_snd_ge curr cnt o
      · exact le_trans (nextLevel_snd_ge curr cnt o) (ih _ _ p hmem)

theorem tagGo_fst_pos (brk : ℕ) (l : List Order) (h : headPriceNonzero l = true) :
    ∀ p ∈ tagGo brk 0 0 l, 1 ≤ p.1 := by
  cases l with
  | nil => intro p hp; cases hp
  | cons o rest =>
    intro p hp
    have hne : o.limit_price ≠ 0 := by
      simpa [headPriceNonzero] using h
    have hst : nextLevel 0 0 o = (o.limit_price, 1) := by
      unfold nextLevel
      rw [if_neg hne]
    rw [tagGo, hst] at hp
    by_cases hbrk : brk < 1
    · rw [if_pos hbrk] at hp; cases hp
    · rw [if_neg hbrk] at hp
      rcases List.mem_cons.mp hp with rfl | hmem
      · exact le_refl 1
      · exact tagGo_fst_ge brk rest o.limit_price 1 p hmem

theorem tagGo_map_snd (brk : ℕ) : ∀ (l : List Order) (curr : ℚ) (cnt : ℕ),
    (tagGo brk curr cnt l).map Prod.snd = selGo brk curr cnt l := by
  intro l
  induction l with
  | nil => intro curr cnt; rfl
  | cons o rest ih =>
    intro curr cnt
    rw [tagGo, selGo]
    by_cases hbrk : brk < (nextLevel curr cnt o).2
    · rw [if_pos hbrk, if_pos hbrk]; rfl
    · rw [if_neg hbrk, if_neg hbrk, List.map_cons, ih]

theorem selGo_trunc {N' N : ℕ} (h : N' ≤ N) : ∀ (l : List Order) (curr : ℚ) (cnt : ℕ),
    selGo N' curr cnt (selGo N curr cnt l) = selGo N' curr cnt l := by
  intro l
  induction l with
  | nil => intro curr cnt; rfl
  | cons o rest ih =>
    intro curr cnt
    by_cases hN : N < (nextLevel curr cnt o).2
    · rw [selGo, if_pos hN]
      rw [selGo, selGo, if_pos (lt_of_le_of_lt h hN)]
    · rw [selGo, if_neg hN]
      by_cases hN' : N' < (nextLevel curr cnt o).2
      · rw [selGo, if_pos hN', selGo, if_pos hN']
      · rw [selGo, if_neg hN', selGo, if_neg hN', ih]

theorem selGo_full_of_le {M N : ℕ} (hMN : M ≤ N) : ∀ (l : List Order) (curr : ℚ) (cnt : ℕ),
    selGo M curr cnt l = l → selGo N curr cnt l = l := by
  intro l
  induction l with
  | nil => intro curr cnt _; rfl
  | cons o rest ih =>
    intro curr cnt h
    rw [selGo] at h ⊢
    by_cases hM : M < (nextLevel curr cnt o).2
    · rw [if_pos hM] at h; cases h
    · rw [if_neg hM] at h
      have htail : selGo M (nextLevel curr cnt o).1 (nextLevel curr cnt o).2 rest = rest :=
        List.tail_eq_of_cons_eq h
      rw [if_neg (by omega : ¬ N < (nextLevel curr cnt o).2), ih _ _ htail]

theorem sideGo_eq_selGo (keep : ℕ → Bool) (brk : ℕ) : ∀ (l : List Order) (curr : ℚ) (cnt : ℕ),
    sideGo keep brk curr cnt l = sideGo keep brk curr cnt (selGo brk curr cnt l) := by
  intro l
  induction l with
  | nil => intro curr cnt; rfl
  | cons o rest ih =>
    intro curr cnt
    by_cases hbrk : brk < (nextLevel curr cnt o).2
    · rw [selGo, if_pos hbrk]
      show sideGo keep brk curr cnt (o :: rest) = sideGo keep brk curr cnt []
      rw [sideGo]
      rw [sideGo, if_pos hbrk]
    · rw [selGo, if_neg hbrk]
      rw [sideGo, sideGo, if_neg hbrk, if_neg hbrk,
        ← ih (nextLevel curr cnt o).1 (nextLevel curr cnt o).2]

theorem buildCrcStrDefault_eq (d : Level3Data) :
    buildCrcStrDefault d =
      match tagStrs 13 0 0 d.asks, tagStrs 12 0 0 d.bids with
      | .ok ta, .ok tb => .ok (keptStrs askKeepDefault ta ++ keptStrs bidKeep tb)
      | .error e, _ => .error e
      | .ok _, .error e => .error e := by
  unfold buildCrcStrDefault
  rw [sideGo_eq_tagStrs, sideGo_eq_tagStrs]
  cases tagStrs 13 0 0 d.asks <;> cases tagStrs 12 0 0 d.bids <;> simp [Except.map]

theorem canon_ok {v f : ℚ} {i : ℤ} (h : canon v f = .ok i) : i = rustRound (v * f) := by
  simp only [canon] at h
  split at h
  · exact (Except.ok.inj h).symm
  · cases h

theorem canon_ok_tol {v f : ℚ} {i : ℤ} (h : canon v f = .ok i) :
    |v * f - (i : ℚ)| < 1 / 1000 := by
  have hi := canon_ok h
  simp only [canon] at h
  split at h
  · rw [hi]; assumption
  · cases h

theorem canon_error_eq {v f : ℚ} {e : PrecisionError} (h : canon v f = .error e) :
    e = ⟨v, f⟩ := by
  simp only [canon] at h
  split at h
  · cases h
  · exact (Except.error.inj h).symm

theorem canon_error_self {v f : ℚ} {e : PrecisionError} (h : canon v f = .error e) :
    canon e.value e.factor = .error e := by
  have he := canon_error_eq h
  subst he
  exact h

theorem entryStr_error_shape {o : Order} {e : PrecisionError} (h : entryStr o = .error e) :
    ((e.value = o.limit_price ∧ e.factor = PRICE_PRECISION_FACTOR) ∨
     (e.value = o.order_qty ∧ e.factor = QTY_PRECISION_FACTOR)) ∧
    canon e.value e.factor = .error e := by
  unfold entryStr at h
  cases hp : canon o.limit_price PRICE_PRECISION_FACTOR with
  | error ep =>
    rw [hp] at h
    cases h
    have := canon_error_eq hp
    subst this
    exact ⟨Or.inl ⟨rfl, rfl⟩, canon_error_self hp⟩
  | ok pi =>
    cases hq : canon o.order_qty QTY_PRECISION_FACTOR with
    | error eq' =>
      rw [hp, hq] at h
      cases h
      have := canon_error_eq hq
      subst this
      exact ⟨Or.inr ⟨rfl, rfl⟩, canon_error_self hq⟩
    | ok qi =>
      rw [hp, hq] at h
      cases h

theorem entryStr_ok_shape {o : Order} {s : List Char} (h : entryStr o = .ok s) :
    ∃ pi qi : ℤ, canon o.limit_price PRICE_PRECISION_FACTOR = .ok pi ∧
      canon o.order_qty QTY_PRECISION_FACTOR = .ok qi ∧
      s = intChars pi ++ intChars qi := by
  unfold entryStr at h
  cases hp : canon o.limit_price PRICE_PRECISION_FACTOR with
  | error ep =>
    rw [hp] at h
    cases h
  | ok pi =>
    cases hq : canon o.order_qty QTY_PRECISION_FACTOR with
    | error eq' =>
      rw [hp, hq] at h
      cases h
    | ok qi =>
      rw [hp, hq] at h
      cases h
      exact ⟨pi, qi, rfl, rfl, rfl⟩

theorem digitChar_toNat_lt (d : ℕ) : (digitChar d).toNat < 128 := by
  match d with
  | 0 | 1 | 2 | 3 | 4 | 5 | 6 | 7 | 8 | 9 => decide
  | n + 10 => exact (by decide : ('!' : Char).toNat < 128)

theorem natChars_ascii (n : ℕ) : ∀ c ∈ natChars n, c.toNat < 128 := by
  rw [natChars_eq_digits]
  split
  · intro c hc
    simp only [List.mem_singleton] at hc
    subst hc; decide
  · intro c hc
    simp only [List.mem_map, List.mem_reverse] at hc
    obtain ⟨d, _, rfl⟩ := hc
    exact digitChar_toNat_lt d

theorem intChars_ascii (i : ℤ) : ∀ c ∈ intChars i, c.toNat < 128 := by
  unfold intChars
  split
  · intro c hc
    rcases List.mem_cons.mp hc with rfl | h
    · decide
    · exact natChars_ascii _ c h
  · exact natChars_ascii _

theorem keptStrs_mem {keep : ℕ → Bool} {ts : List (ℕ × List Char)} {c : Char}
    (hc : c ∈ keptStrs keep ts) : ∃ q ∈ ts, c ∈ q.2 := by
  unfold keptStrs at hc
  rw [List.mem_flatten] at hc
  obtain ⟨l, hl, hcl⟩ := hc
  rw [List.mem_map] at hl
  obtain ⟨q, hq, rfl⟩ := hl
  exact ⟨q, List.mem_of_mem_filter hq, hcl⟩

theorem forall₂_mem_right {α β : Type _} {R : α → β → Prop} :
    ∀ {l₁ : List α} {l₂ : List β}, List.Forall₂ R l₁ l₂ → ∀ {b : β}, b ∈ l₂ →
      ∃ a ∈ l₁, R a b := by
  intro l₁ l₂ hf
  induction hf with
  | nil => intro b hb; cases hb
  | cons h1 _ ih =>
    intro b hb
    rcases List.mem_cons.mp hb with rfl | hmem
    · exact ⟨_, List.mem_cons_self _ _, h1⟩
    · obtain ⟨a, ha, hr⟩ := ih hmem
      exact ⟨a, List.mem_cons_of_mem _ ha, hr⟩

theorem keptStrs_congr {keep keep' : ℕ → Bool} {ts : List (ℕ × List Char)}
    (h : ∀ p ∈ ts, keep p.1 = keep' p.1) : keptStrs keep ts = keptStrs keep' ts := by
  unfold keptStrs
  rw [List.filter_congr h]

theorem tagStrs_ok_ascii {brk : ℕ} {curr : ℚ} {cnt : ℕ} {l : List Order}
    {ts : List (ℕ × List Char)} (h : tagStrs brk curr cnt l = .ok ts) :
    ∀ q ∈ ts, ∀ c ∈ q.2, c.toNat < 128 := by
  intro q hq c hc
  obtain ⟨p, _, _, hok⟩ := forall₂_mem_right (tagStrsGo_ok_forall₂ h) hq
  obtain ⟨pi, qi, _, _, hshape⟩ := entryStr_ok_shape hok
  rw [hshape] at hc
  rcases List.mem_append.mp hc with h' | h'
  · exact intChars_ascii pi c h'
  · exact intChars_ascii qi c h'

theorem validateDefault_ok {d : Level3Data} {s : List Char}
    (h : buildCrcStrDefault d = .ok s) :
    validateDefault d =
      .ok (if d.checksum ≠ crc32 (strBytes s)
           then .Mismatch (crc32 (strBytes s)) d.checksum s else .Valid) := by
  unfold validateDefault
  rw [h]

theorem buildCrcStrNoExcl_eq (d : Level3Data) :
    buildCrcStrNoExcl d =
      match tagStrs 13 0 0 d.asks, tagStrs 12 0 0 d.bids with
      | .ok ta, .ok tb => .ok (keptStrs askKeepNoExcl ta ++ keptStrs bidKeep tb)
      | .error e, _ => .error e
      | .ok _, .error e => .error e := by
  unfold buildCrcStrNoExcl
  rw [sideGo_eq_tagStrs, sideGo_eq_tagStrs]
  cases tagStrs 13 0 0 d.asks <;> cases tagStrs 12 0 0 d.bids <;> simp [Except.map]

/-- Claim C1: for every snapshot whose canonicalization succeeds, the
checksum string is the concatenation of the selected ask entries' strings
followed by the selected bid entries' strings, where each entry's string
is its canonical price-integer string immediately followed by its
canonical quantity-integer string (`entryStr`), with no separators: the
string is exactly the flat concatenation `keptStrs` of those per-entry
strings in traversal order, asks first. -/
theorem checksum_string_ask_then_bid (d : Level3Data) (s : List Char)
    (h : buildCrcStrDefault d = .ok s) :
    ∃ ta tb : List (ℕ × List Char),
      tagStrs 13 0 0 d.asks = .ok ta ∧ tagStrs 12 0 0 d.bids = .ok tb ∧
      List.Forall₂ (fun (p : ℕ × Order) (q : ℕ × List Char) =>
        p.1 = q.1 ∧ entryStr p.2 = .ok q.2) (tagGo 13 0 0 d.asks) ta ∧
      List.Forall₂ (fun (p : ℕ × Order) (q : ℕ × List Char) =>
        p.1 = q.1 ∧ entryStr p.2 = .ok q.2) (tagGo 12 0 0 d.bids) tb ∧
      s = keptStrs askKeepDefault ta ++ keptStrs bidKeep tb := by
  rw [buildCrcStrDefault_eq] at h
  cases hta : tagStrs 13 0 0 d.asks with
  | error e =>
    rw [hta] at h
    cases h
  | ok ta =>
    cases htb : tagStrs 12 0 0 d.bids with
    | error e =>
      rw [hta, htb] at h
      cases h
    | ok tb =>
      rw [hta, htb] at h
      cases h
      exact ⟨ta, tb, rfl, rfl, tagStrsGo_ok_forall₂ hta, tagStrsGo_ok_forall₂ htb, rfl⟩

set_option maxRecDepth 10000 in
/-- Witness for C1: on a one-ask snapshot (price `100.1`, quantity
`1e-8`) the built string is `"10011"` and the characterization holds. -/
theorem checksum_string_ask_then_bid_witness :
    buildCrcStrDefault exC1 = .ok ['1', '0', '0', '1', '1'] ∧
    (∃ ta tb : List (ℕ × List Char),
      tagStrs 13 0 0 exC1.asks = .ok ta ∧ tagStrs 12 0 0 exC1.bids = .ok tb ∧
      List.Forall₂ (fun (p : ℕ × Order) (q : ℕ × List Char) =>
        p.1 = q.1 ∧ entryStr p.2 = .ok q.2) (tagGo 13 0 0 exC1.asks) ta ∧
      List.Forall₂ (fun (p : ℕ × Order) (q : ℕ × List Char) =>
        p.1 = q.1 ∧ entryStr p.2 = .ok q.2) (tagGo 12 0 0 exC1.bids) tb ∧
      ['1', '0', '0', '1', '1'] = keptStrs askKeepDefault ta ++ keptStrs bidKeep tb) :=
  ⟨by with_unfolding_all decide,
   checksum_string_ask_then_bid exC1 ['1', '0', '0', '1', '1'] (by with_unfolding_all decide)⟩

/-- Claim C2: for every snapshot whose entries all canonicalize (the
build succeeds with string `s`), the outcome is `Valid` exactly when the
CRC-32 of the bytes of `s` equals the snapshot's expected checksum, and
otherwise the outcome is a `Mismatch` reporting the computed and expected
values (and the string); every character of `s` is ASCII, so its code
points are its UTF-8 bytes. -/
theorem valid_iff_crc32_matches (d : Level3Data) (s : List Char)
    (h : buildCrcStrDefault d = .ok s) :
    (validateDefault d = .ok .Valid ↔ crc32 (strBytes s) = d.checksum) ∧
    (crc32 (strBytes s) ≠ d.checksum →
      validateDefault d = .ok (.Mismatch (crc32 (strBytes s)) d.checksum s)) ∧
    (∀ c ∈ s, c.toNat < 128) := by
  refine ⟨?_, ?_, ?_⟩
  · rw [validateDefault_ok h]
    by_cases hc : d.checksum = crc32 (strBytes s)
    · rw [if_neg (not_not_intro hc)]
      constructor
      · intro _; exact hc.symm
      · intro _; rfl
    · rw [if_pos hc]
      constructor
      · intro hcontra
        exact absurd (Except.ok.inj hcontra) (by intro h'; cases h')
      · intro he
        exact absurd he.symm hc
  · intro hne
    rw [validateDefault_ok h,
      if_pos (show d.checksum ≠ crc32 (strBytes s) from fun he => hne he.symm)]
  · intro c hc
    rw [buildCrcStrDefault_eq] at h
    cases hta : tagStrs 13 0 0 d.asks with
    | error e => rw [hta] at h; cases h
    | ok ta =>
      cases htb : tagStrs 12 0 0 d.bids with
      | error e => rw [hta, htb] at h; cases h
      | ok tb =>
        rw [hta, htb] at h
        cases h
        rcases List.mem_append.mp hc with h' | h'
        · obtain ⟨q, hq, hcq⟩ := keptStrs_mem h'
          exact tagStrs_ok_ascii hta q hq c hcq
        · obtain ⟨q, hq, hcq⟩ := keptStrs_mem h'
          exact tagStrs_ok_ascii htb q hq c hcq

/-- Witness for C2: the empty snapshot builds the empty string, whose
CRC-32 is `0`, matching its expected checksum, so the outcome is `Valid`. -/
theorem valid_iff_crc32_matches_witness :
    buildCrcStrDefault exC2 = .ok [] ∧
    ((validateDefault exC2 = .ok .Valid ↔ crc32 (strBytes []) = exC2.checksum) ∧
     (crc32 (strBytes []) ≠ exC2.checksum →
       validateDefault exC2 = .ok (.Mismatch (crc32 (strBytes [])) exC2.checksum [])) ∧
     (∀ c ∈ ([] : List Char), c.toNat < 128)) :=
  ⟨rfl, valid_iff_crc32_matches exC2 [] rfl⟩

set_option maxRecDepth 10000 in
/-- Claim C5 (code bug witness): a side whose first order has the sentinel
price `0.0` is conflated with the loop's unset state: the order is scanned
with `price_level_count` still `0` (the next distinct price becomes level
1), yet it is still included by the default filter — it is never treated
as starting level 1 as the specification requires. -/
theorem zero_price_sentinel_conflated :
    (tagGo 13 0 0 exC5.asks).map Prod.fst = [0, 1] ∧
    keptAsks exC5 = exC5.asks ∧
    (tagGo 13 0 0 exC5.asks).map Prod.fst ≠ [1, 2] := by
  with_unfolding_all decide

/-- Claim C6: a canonicalization that succeeds yields exactly the
half-away-from-zero rounding of `value * 10^shift` (shift 1 for prices,
8 for quantities), and its string form has no decimal point, no leading
zeros (except for the literal value zero), and the sign preserved. -/
theorem canon_round_and_string (v w : ℚ) (i j : ℤ)
    (hp : canon v PRICE_PRECISION_FACTOR = .ok i)
    (hq : canon w QTY_PRECISION_FACTOR = .ok j) :
    i = specRound (v * 10 ^ 1) ∧ j = specRound (w * 10 ^ 8) ∧
    strOk i (intChars i) ∧ strOk j (intChars j) := by
  refine ⟨?_, ?_, intChars_strOk i, intChars_strOk j⟩
  · rw [canon_ok hp, rustRound_eq_specRound]
    rfl
  · rw [canon_ok hq, rustRound_eq_specRound]
    rfl

set_option maxRecDepth 10000 in
/-- Witness for C6: price `100.1` canonicalizes to `1001` and quantity
`1e-8` to `1`, with well-formed strings. -/
theorem canon_round_and_string_witness :
    canon (1001 / 10) PRICE_PRECISION_FACTOR = .ok 1001 ∧
    canon (1 / 100000000) QTY_PRECISION_FACTOR = .ok 1 ∧
    (1001 = specRound ((1001 : ℚ) / 10 * 10 ^ 1) ∧
     1 = specRound ((1 : ℚ) / 100000000 * 10 ^ 8) ∧
     strOk 1001 (intChars 1001) ∧ strOk 1 (intChars 1)) :=
  ⟨by with_unfolding_all decide, by with_unfolding_all decide,
   canon_round_and_string (1001 / 10) (1 / 100000000) 1001 1
     (by with_unfolding_all decide) (by with_unfolding_all decide)⟩

set_option maxRecDepth 10000 in
/-- Counterexample to C8 as stated: a snapshot whose asks are out of
ascending price order is not rejected — the code has no price-order
check, and validation runs to a normal outcome (here even `Valid`). -/
theorem out_of_order_not_rejected :
    pricesAscending exC8.asks = false ∧ validateDefault exC8 = .ok .Valid := by
  with_unfolding_all decide

/-- Claim C8 amended: the code performs no price-order validation and has
no `MalformedInput` variant; whatever the price order of the sides,
whenever canonicalization succeeds validation returns a normal
`Valid`/`Mismatch` outcome computed from the same scan. -/
theorem no_order_validation (d : Level3Data) (s : List Char)
    (h : buildCrcStrDefault d = .ok s) :
    ∃ r : ValidationOutcome, validateDefault d = .ok r := by
  unfold validateDefault
  rw [h]
  exact ⟨_, rfl⟩

set_option maxRecDepth 10000 in
/-- Witness for the amended C8, at the out-of-order snapshot itself. -/
theorem no_order_validation_witness :
    buildCrcStrDefault exC8 = .ok ['2', '0', '1', '1', '0', '1'] ∧
    ∃ r : ValidationOutcome, validateDefault exC8 = .ok r :=
  ⟨by with_unfolding_all decide,
   no_order_validation exC8 ['2', '0', '1', '1', '0', '1'] (by with_unfolding_all decide)⟩

/-- Claim C9: level selection is idempotent under truncation — selecting
the first `N` levels and then the first `N' < N` levels of the result
equals selecting the first `N'` levels of the original side. -/
theorem selector_truncation_idempotent (s : List Order) (N N' : ℕ) (h : N' < N) :
    selectLevels N' (selectLevels N s) = selectLevels N' s :=
  selGo_trunc (le_of_lt h) s 0 0

set_option maxRecDepth 10000 in
/-- Witness for C9 on a three-order, two-level side with `N = 2`,
`N' = 1`. -/
theorem selector_truncation_idempotent_witness :
    1 < 2 ∧ selectLevels 1 (selectLevels 2 exC9) = selectLevels 1 exC9 :=
  ⟨by decide, selector_truncation_idempotent exC9 2 1 (by decide)⟩

theorem buildCrcStrDefault_error_asks {d : Level3Data} {e : PrecisionError}
    (h : tagStrs 13 0 0 d.asks = .error e) : buildCrcStrDefault d = .error e := by
  rw [buildCrcStrDefault_eq, h]

theorem buildCrcStrDefault_error_bids {d : Level3Data} {ta : List (ℕ × List Char)}
    {e : PrecisionError} (ha : tagStrs 13 0 0 d.asks = .ok ta)
    (hb : tagStrs 12 0 0 d.bids = .error e) : buildCrcStrDefault d = .error e := by
  rw [buildCrcStrDefault_eq, ha, hb]

theorem validateDefault_error {d : Level3Data} {e : PrecisionError}
    (h : buildCrcStrDefault d = .error e) : validateDefault d = .error e := by
  unfold validateDefault
  rw [h]

theorem keptAsks_mem {d : Level3Data} {o : Order} (h : o ∈ keptAsks d) :
    ∃ p ∈ tagGo 13 0 0 d.asks, p.2 = o := by
  unfold keptAsks at h
  rw [List.mem_map] at h
  obtain ⟨p, hp, rfl⟩ := h
  exact ⟨p, List.mem_of_mem_filter hp, rfl⟩

theorem keptBids_mem {d : Level3Data} {o : Order} (h : o ∈ keptBids d) :
    ∃ p ∈ tagGo 12 0 0 d.bids, p.2 = o := by
  unfold keptBids at h
  rw [List.mem_map] at h
  obtain ⟨p, hp, rfl⟩ := h
  exact ⟨p, List.mem_of_mem_filter hp, rfl⟩

theorem tagStrs_error_shape {brk : ℕ} {curr : ℚ} {cnt : ℕ} {l : List Order}
    {e : PrecisionError} (h : tagStrs brk curr cnt l = .error e) :
    ∃ o' ∈ (tagGo brk curr cnt l).map Prod.snd,
      ((e.value = o'.limit_price ∧ e.factor = PRICE_PRECISION_FACTOR) ∨
       (e.value = o'.order_qty ∧ e.factor = QTY_PRECISION_FACTOR)) ∧
      canon e.value e.factor = .error e := by
  obtain ⟨p, hp, hf⟩ := tagStrsGo_error_mem h
  obtain ⟨hsh, hcanon⟩ := entryStr_error_shape hf
  exact ⟨p.2, List.mem_map_of_mem _ hp, hsh, hcanon⟩

theorem askKeepDefault_eq_c10 : ∀ lv : ℕ, 1 ≤ lv → lv ≤ 13 →
    askKeepDefault lv = ((decide (1 ≤ lv) && decide (lv ≤ 9)) || lv == 12) := by
  intro lv h1 h13
  interval_cases lv <;> rfl

theorem bidKeep_eq_c10 : ∀ lv : ℕ, 1 ≤ lv → lv ≤ 12 →
    bidKeep lv = (decide (1 ≤ lv) && decide (lv ≤ 10)) := by
  intro lv h1 h12
  interval_cases lv <;> rfl

set_option maxRecDepth 10000 in
set_option maxHeartbeats 1000000 in
/-- Counterexample to C3 as stated: no single `levels_per_side` bound `N`,
the same for the bid side and the ask side, makes the entries contributing
to the checksum on each side exactly those of the first `N` price levels:
on twelve distinct ask levels the default mode keeps levels 1–9 and 12,
skipping 10 and 11, which matches the first-`N`-levels selection for no
`N`. -/
theorem no_uniform_level_bound : ¬ ∃ N : ℕ, uniformLevelBound N := by
  rintro ⟨N, h⟩
  have h1 := (h exC3).1
  rcases lt_or_le N 12 with hN | hN
  · interval_cases N <;> revert h1 <;> with_unfolding_all decide
  · have hfull : selectLevels N exC3.asks = exC3.asks :=
      selGo_full_of_le hN exC3.asks 0 0 (by with_unfolding_all decide)
    rw [hfull] at h1
    revert h1
    with_unfolding_all decide

/-- Claim C3 amended: the two scans are bounded by fixed but different
break bounds — the ask scan examines at most 13 distinct price levels and
the bid scan at most 12 (within the scan, the per-side filters keep
different level sets); every order beyond a side's break is ignored
without being canonicalized or rejected: each loop's result depends only
on the prefix its selector keeps. -/
theorem per_side_level_bounds (d : Level3Data) :
    sideGo askKeepDefault 13 0 0 d.asks =
      sideGo askKeepDefault 13 0 0 (selectLevels 13 d.asks) ∧
    sideGo bidKeep 12 0 0 d.bids = sideGo bidKeep 12 0 0 (selectLevels 12 d.bids) ∧
    ((tagGo 13 0 0 d.asks).map Prod.fst).all (fun lv => decide (lv ≤ 13)) = true ∧
    ((tagGo 12 0 0 d.bids).map Prod.fst).all (fun lv => decide (lv ≤ 12)) = true := by
  refine ⟨sideGo_eq_selGo _ _ _ 0 0, sideGo_eq_selGo _ _ _ 0 0, ?_, ?_⟩
  · rw [List.all_eq_true]
    intro lv hlv
    rw [List.mem_map] at hlv
    obtain ⟨p, hp, rfl⟩ := hlv
    exact decide_eq_true (tagGo_fst_le 13 d.asks 0 0 p hp)
  · rw [List.all_eq_true]
    intro lv hlv
    rw [List.mem_map] at hlv
    obtain ⟨p, hp, rfl⟩ := hlv
    exact decide_eq_true (tagGo_fst_le 12 d.bids 0 0 p hp)

/-- Claim C4: with the tagged canonical strings of a snapshot fixed,
running the builder with the default ask filter (base rule
`level < 13` plus exclusion of levels 10 and 11) versus the base rule
alone changes the checksum string only by dropping exactly the entries of
ask levels 10 and 11: the kept ask entries of the excluded run are the
kept entries of the unexcluded run minus those two levels, and the bid
contribution is byte-identical in the two strings. -/
theorem ask_exclusion_frame (d : Level3Data) (ta tb : List (ℕ × List Char))
    (ha : tagStrs 13 0 0 d.asks = .ok ta) (hb : tagStrs 12 0 0 d.bids = .ok tb) :
    buildCrcStrDefault d = .ok (keptStrs askKeepDefault ta ++ keptStrs bidKeep tb) ∧
    buildCrcStrNoExcl d = .ok (keptStrs askKeepNoExcl ta ++ keptStrs bidKeep tb) ∧
    ta.filter (fun p => askKeepDefault p.1) =
      (ta.filter (fun p => askKeepNoExcl p.1)).filter
        (fun p => !(p.1 == 10) && !(p.1 == 11)) := by
  refine ⟨?_, ?_, ?_⟩
  · rw [buildCrcStrDefault_eq, ha, hb]
  · rw [buildCrcStrNoExcl_eq, ha, hb]
  · rw [List.filter_filter]
    apply List.filter_congr
    intro p _
    unfold askKeepDefault askKeepNoExcl
    simp only [bne]
    cases p.1 == 10 <;> cases p.1 == 11 <;> cases decide (p.1 < 13) <;> rfl

set_option maxRecDepth 10000 in
/-- Witness for C4 on a one-ask, one-bid snapshot. -/
theorem ask_exclusion_frame_witness :
    tagStrs 13 0 0 exC4.asks = .ok [(1, ['9', '0', '2'])] ∧
    tagStrs 12 0 0 exC4.bids = .ok [(1, ['7', '0', '1'])] ∧
    (buildCrcStrDefault exC4 =
       .ok (keptStrs askKeepDefault [(1, ['9', '0', '2'])] ++
            keptStrs bidKeep [(1, ['7', '0', '1'])]) ∧
     buildCrcStrNoExcl exC4 =
       .ok (keptStrs askKeepNoExcl [(1, ['9', '0', '2'])] ++
            keptStrs bidKeep [(1, ['7', '0', '1'])]) ∧
     [(1, ['9', '0', '2'])].filter (fun p => askKeepDefault p.1) =
       ([(1, ['9', '0', '2'])].filter (fun p => askKeepNoExcl p.1)).filter
         (fun p => !(p.1 == 10) && !(p.1 == 11))) :=
  ⟨by with_unfolding_all decide, by with_unfolding_all decide,
   ask_exclusion_frame exC4 [(1, ['9', '0', '2'])] [(1, ['7', '0', '1'])]
     (by with_unfolding_all decide) (by with_unfolding_all decide)⟩

/-- Claim C7: if any entry whose canonical strings the checksum would
include fails canonicalization (its shifted value is at least the
tolerance away from its rounding), the whole validation call aborts with
a `PrecisionError` — no outcome and no checksum string are produced —
and the reported error carries the offending value and factor of one of
the scanned entries, on which canonicalization indeed fails. -/
theorem precision_error_aborts (d : Level3Data) (o : Order) (e₀ : PrecisionError)
    (hmem : o ∈ keptAsks d ∨ o ∈ keptBids d)
    (hfail : entryStr o = .error e₀) :
    ∃ e : PrecisionError,
      validateDefault d = .error e ∧ buildCrcStrDefault d = .error e ∧
      ∃ o' ∈ scannedOrders d,
        ((e.value = o'.limit_price ∧ e.factor = PRICE_PRECISION_FACTOR) ∨
         (e.value = o'.order_qty ∧ e.factor = QTY_PRECISION_FACTOR)) ∧
        canon e.value e.factor = .error e := by
  rcases hmem with hA | hB
  · obtain ⟨p, hp, rfl⟩ := keptAsks_mem hA
    obtain ⟨e, hta⟩ := tagStrsGo_error_of_mem p hp hfail
    have hta' : tagStrs 13 0 0 d.asks = .error e := hta
    have hbuild := buildCrcStrDefault_error_asks hta'
    obtain ⟨o', ho', hsh⟩ := tagStrs_error_shape hta'
    exact ⟨e, validateDefault_error hbuild, hbuild, o',
      by unfold scannedOrders; exact List.mem_append_left _ ho', hsh⟩
  · cases hta : tagStrs 13 0 0 d.asks with
    | error e =>
      have hbuild := buildCrcStrDefault_error_asks hta
      obtain ⟨o', ho', hsh⟩ := tagStrs_error_shape hta
      exact ⟨e, validateDefault_error hbuild, hbuild, o',
        by unfold scannedOrders; exact List.mem_append_left _ ho', hsh⟩
    | ok ta =>
      obtain ⟨p, hp, rfl⟩ := keptBids_mem hB
      obtain ⟨e, htb⟩ := tagStrsGo_error_of_mem p hp hfail
      have htb' : tagStrs 12 0 0 d.bids = .error e := htb
      have hbuild := buildCrcStrDefault_error_bids hta htb'
      obtain ⟨o', ho', hsh⟩ := tagStrs_error_shape htb'
      exact ⟨e, validateDefault_error hbuild, hbuild, o',
        by unfold scannedOrders; exact List.mem_append_right _ ho', hsh⟩

set_option maxRecDepth 10000 in
/-- Witness for C7: a single kept ask priced `0.05` (shifted value `0.5`,
half a unit from its rounding, beyond the `1e-3` tolerance) aborts the
validation. -/
theorem precision_error_aborts_witness :
    (mkOrder (1 / 20) 1 ∈ keptAsks exC7 ∨ mkOrder (1 / 20) 1 ∈ keptBids exC7) ∧
    entryStr (mkOrder (1 / 20) 1) = .error ⟨1 / 20, PRICE_PRECISION_FACTOR⟩ ∧
    ∃ e : PrecisionError,
      validateDefault exC7 = .error e ∧ buildCrcStrDefault exC7 = .error e ∧
      ∃ o' ∈ scannedOrders exC7,
        ((e.value = o'.limit_price ∧ e.factor = PRICE_PRECISION_FACTOR) ∨
         (e.value = o'.order_qty ∧ e.factor = QTY_PRECISION_FACTOR)) ∧
        canon e.value e.factor = .error e :=
  ⟨Or.inl (by with_unfolding_all decide), by with_unfolding_all decide,
   precision_error_aborts exC7 (mkOrder (1 / 20) 1) ⟨1 / 20, PRICE_PRECISION_FACTOR⟩
     (Or.inl (by with_unfolding_all decide)) (by with_unfolding_all decide)⟩

set_option maxRecDepth 10000 in
/-- Counterexample to C10 as stated: on a snapshot whose single ask is
priced `0.0`, the order is scanned at `price_level_count = 0` (the
sentinel conflation), is kept by the default filter, and contributes
`"01"` to the checksum string, although its level index lies in neither
`{1, ..., 9}` nor `{12}` — the claimed level sets do not describe the
string exactly. -/
theorem level_zero_entry_in_string :
    tagStrs 13 0 0 exC10.asks = .ok [(0, ['0', '1'])] ∧
    keptStrs (fun lv => (decide (1 ≤ lv) && decide (lv ≤ 9)) || lv == 12)
      [(0, ['0', '1'])] = [] ∧
    buildCrcStrDefault exC10 = .ok ['0', '1'] ∧
    (['0', '1'] : List Char) ≠ [] := by
  with_unfolding_all decide

/-- Claim C10 amended: provided each side opens with a nonzero price (so
the `0.0` sentinel is never conflated with data), the default-mode
checksum string contains exactly the ask entries whose level index lies
in `{1, ..., 9} ∪ {12}` (the ask scan having stopped at a 14th distinct
price) and exactly the bid entries whose level index lies in
`{1, ..., 10}` (the bid scan having stopped at a 13th distinct price). -/
theorem default_mode_level_sets (d : Level3Data) (ta tb : List (ℕ × List Char))
    (hha : headPriceNonzero d.asks = true) (hhb : headPriceNonzero d.bids = true)
    (ha : tagStrs 13 0 0 d.asks = .ok ta) (hb : tagStrs 12 0 0 d.bids = .ok tb) :
    buildCrcStrDefault d =
      .ok (keptStrs (fun lv => (decide (1 ≤ lv) && decide (lv ≤ 9)) || lv == 12) ta ++
           keptStrs (fun lv => decide (1 ≤ lv) && decide (lv ≤ 10)) tb) := by
  have hA : keptStrs askKeepDefault ta =
      keptStrs (fun lv => (decide (1 ≤ lv) && decide (lv ≤ 9)) || lv == 12) ta := by
    apply keptStrs_congr
    intro p hpta
    have hfst : p.1 ∈ ta.map Prod.fst := List.mem_map_of_mem _ hpta
    rw [tagStrsGo_map_fst ha, List.mem_map] at hfst
    obtain ⟨q, hq, hq1⟩ := hfst
    rw [← hq1]
    exact askKeepDefault_eq_c10 q.1 (tagGo_fst_pos 13 d.asks hha q hq)
      (tagGo_fst_le 13 d.asks 0 0 q hq)
  have hB : keptStrs bidKeep tb =
      keptStrs (fun lv => decide (1 ≤ lv) && decide (lv ≤ 10)) tb := by
    apply keptStrs_congr
    intro p hptb
    have hfst : p.1 ∈ tb.map Prod.fst := List.mem_map_of_mem _ hptb
    rw [tagStrsGo_map_fst hb, List.mem_map] at hfst
    obtain ⟨q, hq, hq1⟩ := hfst
    rw [← hq1]
    exact bidKeep_eq_c10 q.1 (tagGo_fst_pos 12 d.bids hhb q hq)
      (tagGo_fst_le 12 d.bids 0 0 q hq)
  rw [buildCrcStrDefault_eq, ha, hb]
  show Except.ok (keptStrs askKeepDefault ta ++ keptStrs bidKeep tb) = _
  rw [hA, hB]

set_option maxRecDepth 10000 in
/-- Witness for the amended C10 on a one-ask, one-bid snapshot with
nonzero opening prices. -/
theorem default_mode_level_sets_witness :
    headPriceNonzero exC10w.asks = true ∧ headPriceNonzero exC10w.bids = true ∧
    tagStrs 13 0 0 exC10w.asks = .ok [(1, ['1', '0', '1'])] ∧
    tagStrs 12 0 0 exC10w.bids = .ok [(1, ['2', '0', '1'])] ∧
    buildCrcStrDefault exC10w =
      .ok (keptStrs (fun lv => (decide (1 ≤ lv) && decide (lv ≤ 9)) || lv == 12)
             [(1, ['1', '0', '1'])] ++
           keptStrs (fun lv => decide (1 ≤ lv) && decide (lv ≤ 10))
             [(1, ['2', '0', '1'])]) :=
  ⟨by with_unfolding_all decide, by with_unfolding_all decide,
   by with_unfolding_all decide, by with_unfolding_all decide,
   default_mode_level_sets exC10w [(1, ['1', '0', '1'])] [(1, ['2', '0', '1'])]
     (by with_unfolding_all decide) (by with_unfolding_all decide)
     (by with_unfolding_all decide) (by with_unfolding_all decide)⟩

end Level3
